import Mathlib

/-!
Shallow embedding of the task-manager backend (Express + Mongoose) for
verification of its natural-language specification.

The embedded code is `src/routes/tasks.js` (the five task handlers) and
`backend/middleware/auth.js` (the `protect` middleware).  The Mongoose
`Task` schema (`models/Task.js`) is not part of the provided sources, so
its validation/trimming behaviour is modelled from the spec; those
definitions are marked `Modelled from the spec:`.  MongoDB and the
`jsonwebtoken` library are external collaborators and are modelled at
their boundary (an in-memory list of documents, an abstract signed-token
type).

JavaScript strings are modelled by Lean `String`; `undefined`-able request
fields by `Option String`; MongoDB ObjectIds and timestamps by `Nat`.
-/

namespace TaskManager

/-- A task document, mirroring the fields of the Mongoose `Task` schema:
`_id`, `title`, `description`, `status`, `user` (owner reference),
`createdAt`, `updatedAt`. -/
structure Task where
  id : Nat
  title : String
  description : String
  status : String
  user : Nat
  createdAt : Nat
  updatedAt : Nat
deriving DecidableEq, Repr

/-- Error outcomes of the task routes: 404 `Task not found`,
400 `Title is required` and schema validation failures (spec: `ValidationError`),
400 `Invalid status. Must be: pending, in-progress, or completed`
(spec: `InvalidStatusError`). -/
inductive TaskError where
  | notFound
  | validationError
  | invalidStatus
deriving DecidableEq, Repr

/-- JavaScript truthiness test for an optional string request field:
`undefined` and the empty string are falsy. -/
def jsFalsy (v : Option String) : Bool :=
  match v with
  | none => true
  | some s => s == ""

/-- JavaScript `v || d` on an optional string field: the default is taken
when the field is `undefined` or the empty string. -/
def jsOr (v : Option String) (d : String) : String :=
  match v with
  | none => d
  | some s => if s == "" then d else s

/-- The status enum test of the routes:
`['pending', 'in-progress', 'completed'].includes(status)`. -/
def statusValid (s : String) : Bool :=
  s == "pending" || s == "in-progress" || s == "completed"

/-- Whitespace characters for the JavaScript-style trim model. -/
def isWS (c : Char) : Bool :=
  c == ' ' || c == '\t' || c == '\n' || c == '\r'

/-- Trim whitespace from both ends of a character list. -/
def trimChars (l : List Char) : List Char :=
  ((l.dropWhile isWS).reverse.dropWhile isWS).reverse

/-- Modelled from the spec: the string trimming applied by the schema
option `trim: true` on `title` (JavaScript `String.prototype.trim`). -/
def jsTrim (s : String) : String :=
  ⟨trimChars s.data⟩

/-- One pattern/text character comparison of the MongoDB
`$regex … $options: 'i'` title filter: `.` matches any character, any
other pattern character matches case-insensitively. -/
def charMatchI (p c : Char) : Bool :=
  p == '.' || p.toLower == c.toLower

/-- Match a regex pattern against a prefix of the text. -/
def matchHere : List Char → List Char → Bool
  | [], _ => true
  | _ :: _, [] => false
  | p :: ps, c :: cs => charMatchI p c && matchHere ps cs

/-- Match a regex pattern at some position of the text (unanchored). -/
def matchFrom (pat : List Char) : List Char → Bool
  | [] => matchHere pat []
  | c :: cs => matchHere pat (c :: cs) || matchFrom pat cs

/-- Modelled at the boundary: the MongoDB query operator
`{ $regex: pat, $options: 'i' }`, restricted to the regex fragment in
which `.` is the only metacharacter.  Unanchored, case-insensitive. -/
def regexIMatch (pat s : String) : Bool :=
  matchFrom pat.data s.data

/-- Case-insensitive character equality. -/
def charEqCI (a b : Char) : Bool :=
  a.toLower == b.toLower

/-- Literal case-insensitive prefix test. -/
def litHere : List Char → List Char → Bool
  | [], _ => true
  | _ :: _, [] => false
  | a :: xs, b :: ys => charEqCI a b && litHere xs ys

/-- Literal case-insensitive occurrence test at any position. -/
def litFrom (pat : List Char) : List Char → Bool
  | [] => litHere pat []
  | c :: cs => litHere pat (c :: cs) || litFrom pat cs

/-- Case-insensitive substring containment, the relation named by the
words of the spec, "title matches case-insensitive substring searchTerm"
(to be compared with the `$regex` behaviour of the code). -/
def containsCI (needle hay : String) : Bool :=
  litFrom needle.data hay.data

/-- Modelled from the spec: `models/Task.js` is not under `src/`.  Per spec
§3, the Task schema requires a non-empty (post-trim) `title`
(`ValidationError`) and a `status` drawn from the three enum values
(`InvalidStatusError`).  The title of the document has already passed through
the `trim` setter when validation runs. -/
def schemaCheck (t : Task) : Except TaskError Unit :=
  if t.title == "" then .error .validationError
  else if statusValid t.status then .ok () else .error .invalidStatus

/-- Modelled from the spec: assignment to `task.title` goes through the
trim setter of the schema (`trim: true`), so the stored value is trimmed. -/
def setTitle (t : Task) (s : String) : Task :=
  { t with title := jsTrim s }

/-- Modelled from the spec: `task.save()` — runs schema validation and,
on success, refreshes `updatedAt` (the schema option `timestamps`) and
writes the document back under its `_id`. -/
def saveTask (db : List Task) (t : Task) (now : Nat) :
    Except TaskError (List Task × Task) :=
  match schemaCheck t with
  | .error e => .error e
  | .ok _ =>
    let t' := { t with updatedAt := now }
    .ok (db.map (fun u => if u.id == t.id then t' else u), t')

/-- The owner-scoped lookup shared by the single-task routes:
`Task.findOne({ _id: tid, user: uid })`. -/
def findOwned (db : List Task) (uid tid : Nat) : Option Task :=
  db.find? (fun t => t.id == tid && t.user == uid)

/-- `GET /api/tasks/:id` — owner-scoped single-task fetch;
404 when no document matches. -/
def getOne (db : List Task) (uid tid : Nat) : Except TaskError Task :=
  match findOwned db uid tid with
  | none => .error .notFound
  | some t => .ok t

/-- The document built by `Task.create` in `POST /api/tasks`:
`description: description || ''`, `status: status || 'pending'`,
`user: req.user._id`; the schema setter trims the title; the store
assigns the fresh id `newId` and both timestamps are `now`. -/
def newTaskDoc (uid : Nat) (title description status : Option String)
    (now newId : Nat) : Task :=
  { id := newId
    title := jsTrim (title.getD "")
    description := jsOr description ""
    status := jsOr status "pending"
    user := uid
    createdAt := now
    updatedAt := now }

/-- `POST /api/tasks` — route-level `if (!title)` check, then
`Task.create`, whose schema validation is modelled from the spec
(see `schemaCheck`). -/
def createTask (db : List Task) (uid : Nat)
    (title description status : Option String) (now newId : Nat) :
    Except TaskError (List Task × Task) :=
  if jsFalsy title then .error .validationError
  else
    match schemaCheck (newTaskDoc uid title description status now newId) with
    | .error e => .error e
    | .ok _ =>
      .ok (db ++ [newTaskDoc uid title description status now newId],
           newTaskDoc uid title description status now newId)

/-- `if (title !== undefined) task.title = title` (through the trim
setter). -/
def applyTitle (t : Task) (title : Option String) : Task :=
  match title with
  | some s => setTitle t s
  | none => t

/-- `if (description !== undefined) task.description = description`. -/
def applyDescription (t : Task) (description : Option String) : Task :=
  match description with
  | some s => { t with description := s }
  | none => t

/-- `PUT /api/tasks/:id` — owner-scoped lookup, then each of
`title`/`description`/`status` is applied only when present
(`!== undefined`); a present status outside the enum returns 400 before
`task.save()` runs. -/
def updateTask (db : List Task) (uid tid : Nat)
    (title description status : Option String) (now : Nat) :
    Except TaskError (List Task × Task) :=
  match findOwned db uid tid with
  | none => .error .notFound
  | some task =>
    match status with
    | none => saveTask db (applyDescription (applyTitle task title) description) now
    | some s =>
      if statusValid s then
        saveTask db
          { applyDescription (applyTitle task title) description with status := s } now
      else .error .invalidStatus

/-- `DELETE /api/tasks/:id` —
`Task.findOneAndDelete({ _id: tid, user: uid })`; the matched document
(the first, and with unique ids the only, match) is removed. -/
def deleteTask (db : List Task) (uid tid : Nat) :
    Except TaskError (List Task) :=
  match findOwned db uid tid with
  | none => .error .notFound
  | some _ => .ok (db.eraseP (fun t => t.id == tid && t.user == uid))

/-- The optional title predicate of `GET /api/tasks`: a truthy `search`
adds the case-insensitive `$regex` title condition; an absent or empty
search adds nothing. -/
def searchPred (search : Option String) (t : Task) : Bool :=
  match search with
  | none => true
  | some q => if q == "" then true else regexIMatch q t.title

/-- The optional status predicate of `GET /api/tasks`: a truthy `status`
that is one of the enum values adds the status equality; an absent,
empty, or unrecognized status adds nothing. -/
def statusPred (status : Option String) (t : Task) : Bool :=
  match status with
  | none => true
  | some s =>
    if s == "" then true
    else if statusValid s then t.status == s else true

/-- The query built by `GET /api/tasks`: always `{ user: userId }`, plus
the optional search and status predicates. -/
def buildQuery (uid : Nat) (search status : Option String) (t : Task) : Bool :=
  t.user == uid && searchPred search t && statusPred status t

/-- Descending creation-time order used by the list route
(`.sort({ createdAt: -1 })`). -/
def createdGe : Task → Task → Prop :=
  fun a b => b.createdAt ≤ a.createdAt

instance : DecidableRel createdGe :=
  fun a b => Nat.decLe b.createdAt a.createdAt

instance : IsTotal Task createdGe :=
  ⟨fun a b => Nat.le_total b.createdAt a.createdAt⟩

instance : IsTrans Task createdGe :=
  ⟨fun _ _ _ h1 h2 => Nat.le_trans h2 h1⟩

/-- `GET /api/tasks` — fetch the documents matching the built query,
sorted by `createdAt` descending (ties in unspecified order; the model
picks a stable sort). -/
def listTasks (db : List Task) (uid : Nat) (search status : Option String) :
    List Task :=
  List.insertionSort createdGe (db.filter (buildQuery uid search status))

/-- The frontend `taskAPI.getAll(search, status)`: an empty-string
argument is omitted from the query parameters of the request. -/
def getAllParams (search status : String) : Option String × Option String :=
  ((if search == "" then none else some search),
   (if status == "" then none else some status))

/-- Store-level effect of a create request: the new state on success, the
old state when the request fails. -/
def applyCreate (db : List Task) (uid : Nat)
    (title description status : Option String) (now newId : Nat) : List Task :=
  match createTask db uid title description status now newId with
  | .ok (db', _) => db'
  | .error _ => db

/-- Store-level effect of an update request. -/
def applyUpdate (db : List Task) (uid tid : Nat)
    (title description status : Option String) (now : Nat) : List Task :=
  match updateTask db uid tid title description status now with
  | .ok (db', _) => db'
  | .error _ => db

/-- Store-level effect of a delete request. -/
def applyDelete (db : List Task) (uid tid : Nat) : List Task :=
  match deleteTask db uid tid with
  | .ok db' => db'
  | .error _ => db

/-- States of the task store reachable from empty through the three
mutating routes. -/
inductive Reachable : List Task → Prop where
  | init : Reachable []
  | createStep (db : List Task) (uid : Nat)
      (title description status : Option String) (now newId : Nat) :
      Reachable db → Reachable (applyCreate db uid title description status now newId)
  | updateStep (db : List Task) (uid tid : Nat)
      (title description status : Option String) (now : Nat) :
      Reachable db → Reachable (applyUpdate db uid tid title description status now)
  | deleteStep (db : List Task) (uid tid : Nat) :
      Reachable db → Reachable (applyDelete db uid tid)

/-- A registered user as seen by the auth middleware (password digest
already stripped by `.select('-password')`). -/
structure User where
  id : Nat
  name : String
  email : String
deriving DecidableEq, Repr

/-- The decoded JWT payload: `{ userId, exp }`. -/
structure TokenPayload where
  userId : Nat
  exp : Nat
deriving DecidableEq, Repr

/-- A raw bearer token: an optional parseable payload (none models a
token whose payload cannot be parsed) plus its signature value. -/
structure Token where
  payload : Option TokenPayload
  sig : Nat
deriving DecidableEq, Repr

/-- Modelled at the boundary: the HMAC signature over the payload with
the server-held secret.  Only the test `tok.sig == hmacSig secret p`
matters for these theorems, so any function of (secret, payload) serves. -/
def hmacSig (secret : Nat) (p : TokenPayload) : Nat :=
  secret + 1000003 * p.userId + 999983 * p.exp

/-- Failure modes of `jwt.verify`. -/
inductive JwtFail where
  | malformed
  | badSignature
  | expired
deriving DecidableEq, Repr

/-- Modelled at the boundary: `jwt.verify(token, secret)` from the
`jsonwebtoken` library — throws when the payload cannot be parsed, the
signature does not match, or the token is expired (`exp ≤ now`), and the
expiry check is independent of signature validity. -/
def jwtVerify (secret now : Nat) (tok : Token) : Except JwtFail TokenPayload :=
  match tok.payload with
  | none => .error .malformed
  | some p =>
    if tok.sig != hmacSig secret p then .error .badSignature
    else if p.exp ≤ now then .error .expired
    else .ok p

/-- Outcomes of the `protect` middleware. -/
inductive AuthOutcome where
  | authed (u : User)
  | noToken
  | invalidToken
  | userNotFound
deriving DecidableEq, Repr

/-- The inner `try` of the `protect` middleware of `middleware/auth.js`,
applied to the extracted bearer token: a `jwt.verify` throw → 401
invalid-token; a verified payload whose `userId` matches no user → 401
user-not-found; otherwise the resolved user is attached to the request. -/
def protectToken (users : List User) (secret now : Nat) (tok : Token) :
    AuthOutcome :=
  match jwtVerify secret now tok with
  | .error _ => .invalidToken
  | .ok p =>
    match users.find? (fun u => u.id == p.userId) with
    | none => .userNotFound
    | some u => .authed u

/-- The `protect` middleware: missing/short header → 401 no-token,
otherwise the extracted token is verified and resolved. -/
def protect (users : List User) (secret now : Nat) (header : Option Token) :
    AuthOutcome :=
  match header with
  | none => .noToken
  | some tok => protectToken users secret now tok

/-- HTTP status code of each auth outcome. -/
def responseStatus : AuthOutcome → Nat
  | .authed _ => 200
  | .noToken => 401
  | .invalidToken => 401
  | .userNotFound => 401

/-- Response message of each failing auth outcome, verbatim from
`middleware/auth.js`. -/
def responseMessage : AuthOutcome → String
  | .authed _ => ""
  | .noToken => "Not authorized, no token provided"
  | .invalidToken => "Not authorized, invalid token"
  | .userNotFound => "User not found"

/-- The head surviving `dropWhile p` fails `p`. -/
theorem head?_dropWhile_false {α : Type} (p : α → Bool) :
    ∀ (l : List α) (c : α), (l.dropWhile p).head? = some c → p c = false := by
  intro l
  induction l with
  | nil => intro c h; exact absurd h (by simp)
  | cons a l ih =>
    intro c h
    cases hpa : p a with
    | true =>
      rw [List.dropWhile_cons, if_pos hpa] at h
      exact ih c h
    | false =>
      rw [List.dropWhile_cons, if_neg (by simp [hpa])] at h
      have : a = c := by simpa using h
      exact this ▸ hpa

/-- A list whose head fails `p` is unchanged by `dropWhile p`. -/
theorem dropWhile_of_head_false {α : Type} (p : α → Bool) (l : List α)
    (h : ∀ c, l.head? = some c → p c = false) : l.dropWhile p = l := by
  cases l with
  | nil => rfl
  | cons a l =>
    rw [List.dropWhile_cons, if_neg (by simp [h a rfl])]

/-- Trimming is idempotent on character lists. -/
theorem trimChars_idem (l : List Char) : trimChars (trimChars l) = trimChars l := by
  unfold trimChars
  have hA : ((l.dropWhile isWS).reverse.dropWhile isWS).reverse.dropWhile isWS
      = ((l.dropWhile isWS).reverse.dropWhile isWS).reverse := by
    apply dropWhile_of_head_false
    intro c hc
    rw [List.head?_reverse] at hc
    obtain ⟨w, hw⟩ := List.dropWhile_suffix (l := (l.dropWhile isWS).reverse) isWS
    cases hv : (l.dropWhile isWS).reverse.dropWhile isWS with
    | nil => rw [hv] at hc; exact absurd hc (by simp)
    | cons b bs =>
      rw [hv] at hc hw
      have hlast : (l.dropWhile isWS).reverse.getLast? = some c := by
        rw [← hw, List.getLast?_append_of_ne_nil w (by simp), hc]
      rw [List.getLast?_reverse] at hlast
      exact head?_dropWhile_false isWS l c hlast
  have hC : ((l.dropWhile isWS).reverse.dropWhile isWS).dropWhile isWS
      = (l.dropWhile isWS).reverse.dropWhile isWS := by
    apply dropWhile_of_head_false
    intro c hc
    exact head?_dropWhile_false isWS (l.dropWhile isWS).reverse c hc
  rw [hA, List.reverse_reverse, hC]

/-- `jsTrim` is idempotent. -/
theorem jsTrim_idem (s : String) : jsTrim (jsTrim s) = jsTrim s :=
  congrArg String.mk (trimChars_idem s.data)

/-- A string with a non-empty trim is non-empty. -/
theorem ne_empty_of_jsTrim_ne {s : String} (h : jsTrim s ≠ "") : s ≠ "" :=
  fun he => h (by rw [he]; rfl)

/-- The owner-scoped lookup finds a stored task under its own owner and
id, provided ids are unique. -/
theorem findOwned_self {db : List Task} {X : Task}
    (hnd : (db.map Task.id).Nodup) (hmem : X ∈ db) :
    findOwned db X.user X.id = some X := by
  have hsome : (db.find? (fun t => t.id == X.id && t.user == X.user)).isSome := by
    rw [List.find?_isSome]
    exact ⟨X, hmem, by simp⟩
  obtain ⟨t, ht⟩ := Option.isSome_iff_exists.mp hsome
  have hmemt := List.mem_of_find?_eq_some ht
  have hpt := List.find?_some ht
  simp only [Bool.and_eq_true, beq_iff_eq] at hpt
  have : t = X := List.inj_on_of_nodup_map hnd hmemt hmem hpt.1
  unfold findOwned
  rw [ht, this]

/-- The owner-scoped lookup fails when no stored task has the given id
and owner. -/
theorem findOwned_none {db : List Task} {uid tid : Nat}
    (h : ∀ t ∈ db, ¬(t.id = tid ∧ t.user = uid)) :
    findOwned db uid tid = none := by
  unfold findOwned
  rw [List.find?_eq_none]
  intro t hmem hc
  simp only [Bool.and_eq_true, beq_iff_eq] at hc
  exact h t hmem hc

/-- A task found by the owner-scoped lookup is stored. -/
theorem findOwned_mem {db : List Task} {uid tid : Nat} {t : Task}
    (h : findOwned db uid tid = some t) : t ∈ db := by
  unfold findOwned at h
  exact List.mem_of_find?_eq_some h

/-- A task found by the owner-scoped lookup carries the requested id and
owner. -/
theorem findOwned_fields {db : List Task} {uid tid : Nat} {t : Task}
    (h : findOwned db uid tid = some t) : t.id = tid ∧ t.user = uid := by
  unfold findOwned at h
  have := List.find?_some h
  simpa using this

/-- After erasing the one owner/id match from a store with unique ids,
nothing matches that owner and id any more. -/
theorem eraseP_owned_no_match (uid tid : Nat) :
    ∀ (db : List Task), (db.map Task.id).Nodup →
      ∀ u ∈ db.eraseP (fun t => t.id == tid && t.user == uid),
        ¬((u.id == tid && u.user == uid) = true) := by
  intro db
  induction db with
  | nil => intro _ u hu; simp at hu
  | cons a l ih =>
    intro hnd u hu
    rw [List.map_cons, List.nodup_cons] at hnd
    cases hpa : (a.id == tid && a.user == uid) with
    | true =>
      simp only [List.eraseP_cons, hpa, cond_true] at hu
      intro hc
      simp only [Bool.and_eq_true, beq_iff_eq] at hpa hc
      exact hnd.1 (by rw [hpa.1, ← hc.1]; exact List.mem_map_of_mem Task.id hu)
    | false =>
      simp only [List.eraseP_cons, hpa, cond_false] at hu
      rcases List.mem_cons.mp hu with h | h
      · subst h; simp [hpa]
      · exact ih hnd.2 u h

/-- Shape of a passed schema validation: the (already trimmed) title is
non-empty. -/
theorem schemaCheck_ok_title {t : Task} {u : Unit}
    (h : schemaCheck t = Except.ok u) : t.title ≠ "" := by
  unfold schemaCheck at h
  by_cases h1 : (t.title == "") = true
  · rw [if_pos h1] at h; simp at h
  · simpa using h1

/-- Shape of a passed schema validation: the status is one of the enum
values. -/
theorem schemaCheck_ok_status {t : Task} {u : Unit}
    (h : schemaCheck t = Except.ok u) : statusValid t.status = true := by
  unfold schemaCheck at h
  by_cases h1 : (t.title == "") = true
  · rw [if_pos h1] at h; simp at h
  · rw [if_neg h1] at h
    by_cases h2 : statusValid t.status = true
    · exact h2
    · rw [if_neg h2] at h; simp at h

/-- Shape of a successful save: the document keeps all fields but gets a
fresh `updatedAt`, the store replaces the document under its id, and the
saved title was non-empty. -/
theorem saveTask_ok {db db' : List Task} {t t' : Task} {now : Nat}
    (hok : saveTask db t now = Except.ok (db', t')) :
    t' = { t with updatedAt := now }
    ∧ db' = db.map (fun u => if u.id == t.id then t' else u)
    ∧ t.title ≠ "" := by
  unfold saveTask at hok
  cases hsc : schemaCheck t with
  | error e => rw [hsc] at hok; simp at hok
  | ok u =>
    rw [hsc] at hok
    simp only [Except.ok.injEq, Prod.mk.injEq] at hok
    refine ⟨hok.2.symm, ?_, schemaCheck_ok_title hsc⟩
    rw [← hok.1, hok.2]

/-- Shape of a successful create: the new document is appended, owner and
timestamps are stamped, defaults applied, the stored title is the trimmed
input and non-empty. -/
theorem createTask_ok {db db' : List Task} {t' : Task} {uid : Nat}
    {ti d st : Option String} {now newId : Nat}
    (hok : createTask db uid ti d st now newId = Except.ok (db', t')) :
    db' = db ++ [t']
    ∧ t'.id = newId ∧ t'.user = uid
    ∧ t'.createdAt = now ∧ t'.updatedAt = now
    ∧ t'.title = jsTrim (ti.getD "") ∧ t'.title ≠ ""
    ∧ t'.description = jsOr d "" ∧ t'.status = jsOr st "pending" := by
  unfold createTask at hok
  by_cases hf : jsFalsy ti = true
  · rw [if_pos hf] at hok; simp at hok
  · rw [if_neg hf] at hok
    cases hsc : schemaCheck (newTaskDoc uid ti d st now newId) with
    | error e => rw [hsc] at hok; simp at hok
    | ok u =>
      rw [hsc] at hok
      simp only [Except.ok.injEq, Prod.mk.injEq] at hok
      have ht' := hok.2.symm
      subst ht'
      exact ⟨hok.1.symm, rfl, rfl, rfl, rfl, rfl, schemaCheck_ok_title hsc, rfl, rfl⟩

/-- Shape of a successful delete: the matched document is erased. -/
theorem deleteTask_ok {db db' : List Task} {uid tid : Nat}
    (hok : deleteTask db uid tid = Except.ok db') :
    db' = db.eraseP (fun t => t.id == tid && t.user == uid) := by
  unfold deleteTask at hok
  cases hf : findOwned db uid tid with
  | none => rw [hf] at hok; simp at hok
  | some t =>
    rw [hf] at hok
    simpa using hok.symm

/-- Field-level shape of a successful update: identity, owner and
creation time are those of the looked-up document; `updatedAt` is
refreshed; each mutable field is the input value when present and the
prior value when absent; the store replaces the document under its id. -/
theorem updateTask_ok_fields {db db' : List Task} {task t' : Task}
    {uid tid : Nat} {ti d st : Option String} {now : Nat}
    (hf : findOwned db uid tid = some task)
    (hok : updateTask db uid tid ti d st now = Except.ok (db', t')) :
    t'.id = task.id ∧ t'.user = task.user ∧ t'.createdAt = task.createdAt
    ∧ t'.updatedAt = now
    ∧ (ti = none → t'.title = task.title)
    ∧ (∀ s, ti = some s → t'.title = jsTrim s)
    ∧ (d = none → t'.description = task.description)
    ∧ (∀ s, d = some s → t'.description = s)
    ∧ (st = none → t'.status = task.status)
    ∧ (∀ s, st = some s → t'.status = s)
    ∧ t'.title ≠ ""
    ∧ db' = db.map (fun u => if u.id == task.id then t' else u) := by
  unfold updateTask at hok
  rw [hf] at hok
  have hbid : (applyDescription (applyTitle task ti) d).id = task.id := by
    cases ti <;> cases d <;> rfl
  have hbuser : (applyDescription (applyTitle task ti) d).user = task.user := by
    cases ti <;> cases d <;> rfl
  have hbcre : (applyDescription (applyTitle task ti) d).createdAt = task.createdAt := by
    cases ti <;> cases d <;> rfl
  have hbt1 : ti = none → (applyDescription (applyTitle task ti) d).title = task.title := by
    intro h; subst h; cases d <;> rfl
  have hbt2 : ∀ s, ti = some s → (applyDescription (applyTitle task ti) d).title = jsTrim s := by
    intro s h; subst h; cases d <;> rfl
  have hbd1 : d = none → (applyDescription (applyTitle task ti) d).description = task.description := by
    intro h; subst h; cases ti <;> rfl
  have hbd2 : ∀ s, d = some s → (applyDescription (applyTitle task ti) d).description = s := by
    intro s h; subst h; cases ti <;> rfl
  have hbstat : (applyDescription (applyTitle task ti) d).status = task.status := by
    cases ti <;> cases d <;> rfl
  cases st with
  | none =>
    have hok' : saveTask db (applyDescription (applyTitle task ti) d) now
        = Except.ok (db', t') := hok
    obtain ⟨ht', hdb', hne⟩ := saveTask_ok hok'
    subst ht'
    refine ⟨hbid, hbuser, hbcre, rfl, hbt1, hbt2, hbd1,
      hbd2, fun _ => hbstat, fun s h => Option.noConfusion h, hne, ?_⟩
    rw [hdb', hbid]
  | some s =>
    have hok' : (if statusValid s
          then saveTask db
            { applyDescription (applyTitle task ti) d with status := s } now
          else Except.error TaskError.invalidStatus)
        = Except.ok (db', t') := hok
    by_cases hs : statusValid s = true
    · rw [if_pos hs] at hok'
      obtain ⟨ht', hdb', hne⟩ := saveTask_ok hok'
      subst ht'
      refine ⟨hbid, hbuser, hbcre, rfl, hbt1, hbt2, hbd1,
        hbd2, fun h => Option.noConfusion h, ?_, hne, ?_⟩
      · intro s' h
        have : s = s' := by injection h
        rw [← this]
      · rw [hdb', hbid]
    · rw [if_neg hs] at hok'
      simp at hok'

/-- The stored-title invariant carried through reachable states: every
stored title is non-empty and already trimmed. -/
def TitleInv (db : List Task) : Prop :=
  ∀ t ∈ db, t.title ≠ "" ∧ jsTrim t.title = t.title

/-- A successful create preserves the stored-title invariant. -/
theorem createTask_preserves_titleInv {db db' : List Task} {t' : Task}
    {uid : Nat} {ti d st : Option String} {now newId : Nat}
    (hok : createTask db uid ti d st now newId = Except.ok (db', t'))
    (hinv : TitleInv db) : TitleInv db' := by
  obtain ⟨hdb', _, _, _, _, htitle, hne, _, _⟩ := createTask_ok hok
  subst hdb'
  intro t ht
  rcases List.mem_append.mp ht with h | h
  · exact hinv t h
  · have heq : t = t' := by simpa using h
    subst heq
    refine ⟨hne, ?_⟩
    rw [htitle]
    exact jsTrim_idem _

/-- A successful update preserves the stored-title invariant. -/
theorem updateTask_preserves_titleInv {db db' : List Task} {t' : Task}
    {uid tid : Nat} {ti d st : Option String} {now : Nat}
    (hok : updateTask db uid tid ti d st now = Except.ok (db', t'))
    (hinv : TitleInv db) : TitleInv db' := by
  cases hf : findOwned db uid tid with
  | none => unfold updateTask at hok; rw [hf] at hok; simp at hok
  | some task =>
    obtain ⟨_, _, _, _, ht1, ht2, _, _, _, _, hne, hdb'⟩ := updateTask_ok_fields hf hok
    subst hdb'
    intro x hx
    obtain ⟨u, hu, hxu⟩ := List.mem_map.mp hx
    by_cases hid : (u.id == task.id) = true
    · rw [if_pos hid] at hxu
      subst hxu
      refine ⟨hne, ?_⟩
      cases ti with
      | none =>
        rw [ht1 rfl]
        exact (hinv task (findOwned_mem hf)).2
      | some s =>
        rw [ht2 s rfl]
        exact jsTrim_idem s
    · rw [if_neg hid] at hxu
      subst hxu
      exact hinv u hu

/-- Every reachable store satisfies the stored-title invariant. -/
theorem reachable_titleInv {db : List Task} (h : Reachable db) : TitleInv db := by
  induction h with
  | init => intro t ht; simp at ht
  | createStep db uid ti d st now newId hr ih =>
    unfold applyCreate
    cases hc : createTask db uid ti d st now newId with
    | ok p =>
      obtain ⟨db', t'⟩ := p
      exact createTask_preserves_titleInv hc ih
    | error e => exact ih
  | updateStep db uid tid ti d st now hr ih =>
    unfold applyUpdate
    cases hc : updateTask db uid tid ti d st now with
    | ok p =>
      obtain ⟨db', t'⟩ := p
      exact updateTask_preserves_titleInv hc ih
    | error e => exact ih
  | deleteStep db uid tid hr ih =>
    unfold applyDelete
    cases hc : deleteTask db uid tid with
    | ok db2 =>
      have h2 := deleteTask_ok hc
      subst h2
      intro t ht
      exact ih t (List.mem_of_mem_eraseP ht)
    | error e => exact ih

/-- A create whose supplied title trims to the empty string fails with
the validation error (route check for the falsy empty string, modelled
schema check for whitespace-only titles). -/
theorem createTask_trim_empty (db : List Task) (uid : Nat) (ttl : String)
    (d st : Option String) (now newId : Nat) (h : jsTrim ttl = "") :
    createTask db uid (some ttl) d st now newId
      = Except.error TaskError.validationError := by
  unfold createTask
  by_cases hz : jsFalsy (some ttl) = true
  · rw [if_pos hz]
  · rw [if_neg hz]
    have hsc : schemaCheck (newTaskDoc uid (some ttl) d st now newId)
        = Except.error TaskError.validationError := by
      simp [schemaCheck, newTaskDoc, h]
    rw [hsc]

/-- `jwt.verify` throws a signature error on a signature mismatch. -/
theorem jwtVerify_badSig {secret now : Nat} {tok : Token} {p : TokenPayload}
    (hp : tok.payload = some p) (hne : tok.sig ≠ hmacSig secret p) :
    jwtVerify secret now tok = Except.error JwtFail.badSignature := by
  unfold jwtVerify
  rw [hp]
  simp [hne]

/-- `jwt.verify` throws on an expired token, for any signature. -/
theorem jwtVerify_err_of_expired {secret now : Nat} {tok : Token}
    {p : TokenPayload} (hp : tok.payload = some p) (hexp : p.exp ≤ now) :
    ∃ f, jwtVerify secret now tok = Except.error f := by
  unfold jwtVerify
  rw [hp]
  by_cases hsig : tok.sig = hmacSig secret p
  · exact ⟨JwtFail.expired, by simp [hsig, hexp]⟩
  · exact ⟨JwtFail.badSignature, by simp [hsig]⟩

/-- `jwt.verify` succeeds on a parseable, correctly signed, unexpired
token. -/
theorem jwtVerify_ok {secret now : Nat} {tok : Token} {p : TokenPayload}
    (hp : tok.payload = some p) (hsig : tok.sig = hmacSig secret p)
    (hlt : now < p.exp) :
    jwtVerify secret now tok = Except.ok p := by
  unfold jwtVerify
  rw [hp]
  simp [hsig, Nat.not_le.mpr hlt]

/-- Any `jwt.verify` throw makes `protect` answer the invalid-token
response. -/
theorem protect_of_verify_err {users : List User} {secret now : Nat}
    {tok : Token} {f : JwtFail}
    (h : jwtVerify secret now tok = Except.error f) :
    protect users secret now (some tok) = AuthOutcome.invalidToken := by
  show protectToken users secret now tok = AuthOutcome.invalidToken
  unfold protectToken
  rw [h]

/-- A verified token proceeds to the user lookup. -/
theorem protect_of_verify_ok {users : List User} {secret now : Nat}
    {tok : Token} {p : TokenPayload}
    (h : jwtVerify secret now tok = Except.ok p) :
    protect users secret now (some tok)
      = (match users.find? (fun u => u.id == p.userId) with
         | none => AuthOutcome.userNotFound
         | some u => AuthOutcome.authed u) := by
  show protectToken users secret now tok
      = (match users.find? (fun u => u.id == p.userId) with
         | none => AuthOutcome.userNotFound
         | some u => AuthOutcome.authed u)
  unfold protectToken
  rw [h]

/-- The search predicate holds exactly when every supplied non-empty
search term regex-matches the title. -/
theorem searchPred_iff (search : Option String) (t : Task) :
    searchPred search t = true
      ↔ (∀ q, search = some q → q ≠ "" → regexIMatch q t.title = true) := by
  cases search with
  | none => simp [searchPred]
  | some q0 =>
    by_cases hq : q0 = ""
    · subst hq
      constructor
      · intro _ q hq' hne
        cases hq'
        exact absurd rfl hne
      · intro _
        simp [searchPred]
    · simp only [searchPred]
      rw [if_neg (by simp [hq])]
      constructor
      · intro h q hq' _
        cases hq'
        exact h
      · intro h
        exact h q0 rfl hq

/-- The status predicate holds exactly when every supplied enum-valued
status filter equals the status of the task. -/
theorem statusPred_iff (status : Option String) (t : Task) :
    statusPred status t = true
      ↔ (∀ s, status = some s → statusValid s = true → t.status = s) := by
  cases status with
  | none => simp [statusPred]
  | some s0 =>
    by_cases hs : s0 = ""
    · subst hs
      constructor
      · intro _ s hs' hv
        cases hs'
        simp [statusValid] at hv
      · intro _
        simp [statusPred]
    · simp only [statusPred]
      rw [if_neg (by simp [hs])]
      by_cases hv : statusValid s0 = true
      · rw [if_pos hv]
        constructor
        · intro h s hs' _
          cases hs'
          simpa using h
        · intro h
          simp [h s0 rfl hv]
      · rw [if_neg hv]
        constructor
        · intro _ s hs' hv'
          cases hs'
          exact absurd hv' hv
        · intro _
          rfl

/-- The full list query holds exactly when the task has the right owner
and passes both optional filters. -/
theorem buildQuery_iff (uid : Nat) (search status : Option String) (t : Task) :
    buildQuery uid search status t = true
      ↔ (t.user = uid
          ∧ (∀ q, search = some q → q ≠ "" → regexIMatch q t.title = true)
          ∧ (∀ s, status = some s → statusValid s = true → t.status = s)) := by
  unfold buildQuery
  rw [Bool.and_eq_true, Bool.and_eq_true, searchPred_iff, statusPred_iff]
  simp only [beq_iff_eq]
  rw [and_assoc]

/-- C1: Ownership isolation — with unique task ids, a task X owned by A
is returned by `getOne` under the identity of A, while `getOne`, `updateTask`
and `deleteTask` under any other identity B all fail with the not-found
error, so no task is returned, modified, or deleted by a non-owner. -/
theorem ownership_isolation (db : List Task) (A B : Nat) (X : Task)
    (hnd : (db.map Task.id).Nodup) (hmem : X ∈ db) (hown : X.user = A)
    (hne : A ≠ B) :
    getOne db A X.id = Except.ok X
    ∧ getOne db B X.id = Except.error TaskError.notFound
    ∧ (∀ ti d st now, updateTask db B X.id ti d st now
        = Except.error TaskError.notFound)
    ∧ deleteTask db B X.id = Except.error TaskError.notFound := by
  subst hown
  have hA : findOwned db X.user X.id = some X := findOwned_self hnd hmem
  have hB : findOwned db B X.id = none := by
    apply findOwned_none
    intro t ht hc
    have heq : t = X := List.inj_on_of_nodup_map hnd ht hmem hc.1
    subst heq
    exact hne hc.2
  refine ⟨?_, ?_, ?_, ?_⟩
  · unfold getOne
    rw [hA]
  · unfold getOne
    rw [hB]
  · intro ti d st now
    unfold updateTask
    rw [hB]
  · unfold deleteTask
    rw [hB]

/-- Witness for C1 at a concrete store: user 10 owns task 1; user 11
can neither fetch, update, nor delete it. -/
theorem ownership_isolation_witness :
    getOne [⟨1, "a", "", "pending", 10, 0, 0⟩] 10 1
        = Except.ok ⟨1, "a", "", "pending", 10, 0, 0⟩
    ∧ getOne [⟨1, "a", "", "pending", 10, 0, 0⟩] 11 1
        = Except.error TaskError.notFound
    ∧ updateTask [⟨1, "a", "", "pending", 10, 0, 0⟩] 11 1 (some "x") none none 3
        = Except.error TaskError.notFound
    ∧ deleteTask [⟨1, "a", "", "pending", 10, 0, 0⟩] 11 1
        = Except.error TaskError.notFound := by
  have h := ownership_isolation [⟨1, "a", "", "pending", 10, 0, 0⟩] 10 11
    ⟨1, "a", "", "pending", 10, 0, 0⟩ (by decide) (by decide) rfl (by decide)
  exact ⟨h.1, h.2.1, h.2.2.1 (some "x") none none 3, h.2.2.2⟩

/-- C2 counterexample: a supplied empty-string status is not one of the
three enum values, yet the create succeeds (JavaScript `status ||
'pending'` treats it as absent), so the claim as stated is false. -/
theorem create_blank_status_counterexample :
    statusValid "" = false
    ∧ createTask [] 1 (some "t") none (some "") 5 9
        = Except.ok ([⟨9, "t", "", "pending", 1, 5, 5⟩],
                     ⟨9, "t", "", "pending", 1, 5, 5⟩) :=
  ⟨rfl, rfl⟩

/-- C2 amended: for every create whose supplied status is non-empty and
outside the enum, no task is created (the store is unchanged), and when
the title is valid the failure is the invalid-status error; a supplied
empty-string status is instead treated as absent and defaults to
`pending`. -/
theorem create_invalid_status_rejected (db : List Task) (uid : Nat)
    (ti d : Option String) (ttl s : String) (now newId : Nat)
    (hs : s ≠ "") (hbad : statusValid s = false) :
    applyCreate db uid ti d (some s) now newId = db
    ∧ (jsTrim ttl ≠ "" →
        createTask db uid (some ttl) d (some s) now newId
          = Except.error TaskError.invalidStatus) := by
  have h2 : ∀ (u : String), jsTrim u ≠ "" →
      createTask db uid (some u) d (some s) now newId
        = Except.error TaskError.invalidStatus := by
    intro u hu
    unfold createTask
    rw [if_neg (by simp [jsFalsy, ne_empty_of_jsTrim_ne hu])]
    have hsc : schemaCheck (newTaskDoc uid (some u) d (some s) now newId)
        = Except.error TaskError.invalidStatus := by
      simp [schemaCheck, newTaskDoc, jsOr, hs, hu, hbad]
    rw [hsc]
  refine ⟨?_, h2 ttl⟩
  unfold applyCreate
  cases hti : ti with
  | none =>
    have hc : createTask db uid none d (some s) now newId
        = Except.error TaskError.validationError := rfl
    rw [hc]
  | some u =>
    by_cases hz : u = ""
    · subst hz
      have hc : createTask db uid (some "") d (some s) now newId
          = Except.error TaskError.validationError := rfl
      rw [hc]
    · by_cases htr : jsTrim u = ""
      · rw [createTask_trim_empty db uid u d (some s) now newId htr]
      · rw [h2 u htr]

/-- Witness for C2 (amended) at a concrete input: status `archived`. -/
theorem create_invalid_status_witness :
    applyCreate [] 1 (some "t") none (some "archived") 5 9 = []
    ∧ createTask [] 1 (some "t") none (some "archived") 5 9
        = Except.error TaskError.invalidStatus := by
  have h := create_invalid_status_rejected [] 1 (some "t") none "t" "archived" 5 9
    (by decide) (by decide)
  exact ⟨h.1, h.2 (by decide)⟩

/-- C3: an update of a stored task with a status outside the enum fails
with the invalid-status error and leaves the store — hence every field
of the stored task — unchanged; no partial application of title or
description survives. -/
theorem update_invalid_status_atomic (db : List Task) (X : Task)
    (ti d : Option String) (s : String) (now : Nat)
    (hnd : (db.map Task.id).Nodup) (hmem : X ∈ db)
    (hbad : statusValid s = false) :
    updateTask db X.user X.id ti d (some s) now
      = Except.error TaskError.invalidStatus
    ∧ applyUpdate db X.user X.id ti d (some s) now = db := by
  have hA : findOwned db X.user X.id = some X := findOwned_self hnd hmem
  have h1 : updateTask db X.user X.id ti d (some s) now
      = Except.error TaskError.invalidStatus := by
    unfold updateTask
    rw [hA]
    show (if statusValid s
        then saveTask db
          { applyDescription (applyTitle X ti) d with status := s } now
        else Except.error TaskError.invalidStatus)
      = Except.error TaskError.invalidStatus
    rw [if_neg (by simp [hbad])]
  refine ⟨h1, ?_⟩
  unfold applyUpdate
  rw [h1]

/-- Witness for C3 at a concrete store: status `archived` is rejected
and the store keeps the old title and description. -/
theorem update_invalid_status_witness :
    updateTask [⟨1, "old", "od", "pending", 2, 0, 0⟩] 2 1
        (some "New") (some "nd") (some "archived") 9
      = Except.error TaskError.invalidStatus
    ∧ applyUpdate [⟨1, "old", "od", "pending", 2, 0, 0⟩] 2 1
        (some "New") (some "nd") (some "archived") 9
      = [⟨1, "old", "od", "pending", 2, 0, 0⟩] :=
  update_invalid_status_atomic [⟨1, "old", "od", "pending", 2, 0, 0⟩]
    ⟨1, "old", "od", "pending", 2, 0, 0⟩ (some "New") (some "nd") "archived" 9
    (by decide) (by decide) (by decide)

/-- C4: the token gate — resolution answers the invalid-token response
whenever the payload cannot be parsed, or the signature mismatches, or
the token is expired (regardless of signature validity); only a token
passing all three checks proceeds to the user lookup. -/
theorem token_validation_gate (users : List User) (secret now : Nat)
    (tok : Token) :
    (tok.payload = none →
      protect users secret now (some tok) = AuthOutcome.invalidToken)
    ∧ (∀ p, tok.payload = some p → tok.sig ≠ hmacSig secret p →
        protect users secret now (some tok) = AuthOutcome.invalidToken)
    ∧ (∀ p, tok.payload = some p → p.exp ≤ now →
        protect users secret now (some tok) = AuthOutcome.invalidToken)
    ∧ (∀ p, tok.payload = some p → tok.sig = hmacSig secret p → now < p.exp →
        protect users secret now (some tok)
          = (match users.find? (fun u => u.id == p.userId) with
             | none => AuthOutcome.userNotFound
             | some u => AuthOutcome.authed u)) := by
  refine ⟨?_, ?_, ?_, ?_⟩
  · intro h
    apply protect_of_verify_err
    unfold jwtVerify
    rw [h]
  · intro p hp hne
    exact protect_of_verify_err (jwtVerify_badSig hp hne)
  · intro p hp hexp
    obtain ⟨f, hf⟩ := jwtVerify_err_of_expired hp hexp
    exact protect_of_verify_err hf
  · intro p hp hsig hlt
    exact protect_of_verify_ok (jwtVerify_ok hp hsig hlt)

/-- Witness for C4: an unparseable token, a tampered signature, an
expired but correctly signed token, and a fully valid token. -/
theorem token_validation_gate_witness :
    protect [] 3 0 (some ⟨none, 0⟩) = AuthOutcome.invalidToken
    ∧ protect [] 3 0 (some ⟨some ⟨7, 10⟩, hmacSig 3 ⟨7, 10⟩ + 1⟩)
        = AuthOutcome.invalidToken
    ∧ protect [] 3 99 (some ⟨some ⟨7, 10⟩, hmacSig 3 ⟨7, 10⟩⟩)
        = AuthOutcome.invalidToken
    ∧ protect [⟨7, "n", "e"⟩] 3 0 (some ⟨some ⟨7, 10⟩, hmacSig 3 ⟨7, 10⟩⟩)
        = AuthOutcome.authed ⟨7, "n", "e"⟩ := by
  have h1 := (token_validation_gate [] 3 0 ⟨none, 0⟩).1 rfl
  have h2 := (token_validation_gate [] 3 0
    ⟨some ⟨7, 10⟩, hmacSig 3 ⟨7, 10⟩ + 1⟩).2.1 ⟨7, 10⟩ rfl (Nat.succ_ne_self _)
  have h3 := (token_validation_gate [] 3 99
    ⟨some ⟨7, 10⟩, hmacSig 3 ⟨7, 10⟩⟩).2.2.1 ⟨7, 10⟩ rfl (by decide)
  have h4 := (token_validation_gate [⟨7, "n", "e"⟩] 3 0
    ⟨some ⟨7, 10⟩, hmacSig 3 ⟨7, 10⟩⟩).2.2.2 ⟨7, 10⟩ rfl rfl (by decide)
  exact ⟨h1, h2, h3, h4.trans rfl⟩

/-- C5 counterexample: a valid token for a deleted user and a
tampered-signature token both yield 401, but with different response
bodies (`User not found` vs `Not authorized, invalid token`), so the two
cases are externally distinguishable — the claim of an indistinguishable
response is false. -/
theorem deleted_user_message_counterexample :
    protect [] 3 0 (some ⟨some ⟨99, 10⟩, hmacSig 3 ⟨99, 10⟩⟩)
        = AuthOutcome.userNotFound
    ∧ protect [] 3 0 (some ⟨some ⟨99, 10⟩, hmacSig 3 ⟨99, 10⟩ + 1⟩)
        = AuthOutcome.invalidToken
    ∧ responseMessage AuthOutcome.userNotFound
        ≠ responseMessage AuthOutcome.invalidToken :=
  ⟨rfl, rfl, by decide⟩

/-- C5 amended: a syntactically valid, unexpired, correctly signed token
whose userId matches no user fails with the user-not-found outcome —
the same 401 status class as a bad signature, but with a different
response message, so the two cases are distinguishable by body. -/
theorem deleted_user_unauthorized (users : List User) (secret now : Nat)
    (tok : Token) (p : TokenPayload)
    (hp : tok.payload = some p) (hsig : tok.sig = hmacSig secret p)
    (hlt : now < p.exp) (hno : ∀ u ∈ users, u.id ≠ p.userId) :
    protect users secret now (some tok) = AuthOutcome.userNotFound
    ∧ responseStatus AuthOutcome.userNotFound
        = responseStatus AuthOutcome.invalidToken
    ∧ responseMessage AuthOutcome.userNotFound
        ≠ responseMessage AuthOutcome.invalidToken := by
  refine ⟨?_, rfl, by decide⟩
  rw [protect_of_verify_ok (jwtVerify_ok hp hsig hlt)]
  have hfind : users.find? (fun u => u.id == p.userId) = none := by
    rw [List.find?_eq_none]
    intro u hu
    simpa using hno u hu
  rw [hfind]

/-- Witness for C5 (amended) at a concrete valid token and empty user
store. -/
theorem deleted_user_unauthorized_witness :
    protect [⟨5, "n", "e"⟩] 3 0 (some ⟨some ⟨99, 10⟩, hmacSig 3 ⟨99, 10⟩⟩)
        = AuthOutcome.userNotFound
    ∧ responseStatus AuthOutcome.userNotFound
        = responseStatus AuthOutcome.invalidToken
    ∧ responseMessage AuthOutcome.userNotFound
        ≠ responseMessage AuthOutcome.invalidToken :=
  deleted_user_unauthorized [⟨5, "n", "e"⟩] 3 0
    ⟨some ⟨99, 10⟩, hmacSig 3 ⟨99, 10⟩⟩ ⟨99, 10⟩ rfl rfl (by decide) (by decide)

/-- C6 counterexample: the search term is passed to the store as a
regular expression, not a literal substring — the term `a.c`
regex-matches the title `abc`, so the task is returned although `a.c`
is not a case-insensitive substring of `abc`; the claim as stated is
false. -/
theorem list_regex_counterexample :
    listTasks [⟨1, "abc", "", "pending", 1, 0, 0⟩] 1 (some "a.c") none
      = [⟨1, "abc", "", "pending", 1, 0, 0⟩]
    ∧ containsCI "a.c" "abc" = false := by
  exact ⟨by decide, by decide⟩

/-- C6 amended: `listTasks` returns exactly those tasks of the caller whose
title matches the supplied non-empty search term as a case-insensitive
regular expression (which coincides with substring containment only for
metacharacter-free terms) and whose status equals the supplied filter
when it is one of the three enum values (an unrecognized or empty filter
is treated as absent), ordered by creation time descending, with the
empty sequence (not an error) when nothing matches. -/
theorem list_characterization (db : List Task) (uid : Nat)
    (search status : Option String) :
    (∀ t : Task, t ∈ listTasks db uid search status ↔
      (t ∈ db ∧ t.user = uid
        ∧ (∀ q, search = some q → q ≠ "" → regexIMatch q t.title = true)
        ∧ (∀ s, status = some s → statusValid s = true → t.status = s)))
    ∧ (listTasks db uid search status).Pairwise
        (fun a b => b.createdAt ≤ a.createdAt)
    ∧ ((∀ t ∈ db, ¬(t.user = uid
        ∧ (∀ q, search = some q → q ≠ "" → regexIMatch q t.title = true)
        ∧ (∀ s, status = some s → statusValid s = true → t.status = s)))
      → listTasks db uid search status = []) := by
  have hmem : ∀ t : Task, t ∈ listTasks db uid search status ↔
      (t ∈ db ∧ buildQuery uid search status t = true) := by
    intro t
    unfold listTasks
    rw [List.mem_insertionSort, List.mem_filter]
  refine ⟨?_, ?_, ?_⟩
  · intro t
    rw [hmem t, buildQuery_iff]
  · exact List.sorted_insertionSort createdGe _
  · intro h
    rw [List.eq_nil_iff_forall_not_mem]
    intro t ht
    rw [hmem t, buildQuery_iff] at ht
    exact h t ht.1 ht.2

/-- Witness for C6 (amended): the empty store lists to the empty
sequence. -/
theorem list_characterization_witness :
    listTasks ([] : List Task) 1 none none = [] :=
  (list_characterization [] 1 none none).2.2
    (fun t ht => absurd ht (List.not_mem_nil t))

/-- C7: a create whose supplied title trims to the empty string fails
with the validation error, and in every reachable store every stored
stored task has a title that is non-empty after trimming. -/
theorem title_nonempty_invariant :
    (∀ (db : List Task) (uid : Nat) (ttl : String) (d st : Option String)
        (now newId : Nat),
      jsTrim ttl = "" →
        createTask db uid (some ttl) d st now newId
          = Except.error TaskError.validationError)
    ∧ (∀ db, Reachable db → ∀ t ∈ db, jsTrim t.title ≠ "") := by
  constructor
  · intro db uid ttl d st now newId h
    exact createTask_trim_empty db uid ttl d st now newId h
  · intro db h t ht
    have hi := reachable_titleInv h t ht
    rw [hi.2]
    exact hi.1

/-- Witness for C7: a whitespace title is rejected, and the store
reached by one successful create holds a task with a non-empty trimmed
title. -/
theorem title_nonempty_invariant_witness :
    createTask [] 1 (some "   ") none none 0 7
        = Except.error TaskError.validationError
    ∧ jsTrim (Task.title ⟨7, "hi", "", "pending", 1, 5, 5⟩) ≠ "" := by
  refine ⟨title_nonempty_invariant.1 [] 1 "   " none none 0 7 (by decide), ?_⟩
  have h0 := Reachable.createStep [] 1 (some " hi ") none none 5 7 Reachable.init
  have he : applyCreate [] 1 (some " hi ") none none 5 7
      = [⟨7, "hi", "", "pending", 1, 5, 5⟩] := rfl
  rw [he] at h0
  exact title_nonempty_invariant.2 _ h0 ⟨7, "hi", "", "pending", 1, 5, 5⟩ (by simp)

/-- C8: frame effect of a successful update on a stored task — identity,
owner and creation time are preserved, `updatedAt` is refreshed, each
field absent from the input keeps its prior value, each present field
takes the input value (the title through the trim setter), and every
other stored task is untouched. -/
theorem update_frame (db db' : List Task) (X t' : Task)
    (ti d st : Option String) (now : Nat)
    (hnd : (db.map Task.id).Nodup) (hmem : X ∈ db)
    (hok : updateTask db X.user X.id ti d st now = Except.ok (db', t')) :
    t'.id = X.id ∧ t'.user = X.user ∧ t'.createdAt = X.createdAt
    ∧ t'.updatedAt = now
    ∧ (ti = none → t'.title = X.title)
    ∧ (∀ s, ti = some s → t'.title = jsTrim s)
    ∧ (d = none → t'.description = X.description)
    ∧ (∀ s, d = some s → t'.description = s)
    ∧ (st = none → t'.status = X.status)
    ∧ (∀ s, st = some s → t'.status = s)
    ∧ db' = db.map (fun u => if u.id == X.id then t' else u) := by
  have hA : findOwned db X.user X.id = some X := findOwned_self hnd hmem
  obtain ⟨h1, h2, h3, h4, h5, h6, h7, h8, h9, h10, _, h12⟩ :=
    updateTask_ok_fields hA hok
  exact ⟨h1, h2, h3, h4, h5, h6, h7, h8, h9, h10, h12⟩

/-- Witness for C8 at a concrete store: update of title and status only;
description, creation time and identity survive, `updatedAt` moves to 9,
the title is stored trimmed. -/
theorem update_frame_witness :
    updateTask [⟨1, "old", "od", "pending", 2, 3, 4⟩] 2 1
        (some " New ") none (some "completed") 9
      = Except.ok ([⟨1, "New", "od", "completed", 2, 3, 9⟩],
                   ⟨1, "New", "od", "completed", 2, 3, 9⟩)
    ∧ Task.description ⟨1, "New", "od", "completed", 2, 3, 9⟩
        = Task.description ⟨1, "old", "od", "pending", 2, 3, 4⟩
    ∧ Task.createdAt ⟨1, "New", "od", "completed", 2, 3, 9⟩ = 3
    ∧ Task.updatedAt ⟨1, "New", "od", "completed", 2, 3, 9⟩ = 9
    ∧ Task.title ⟨1, "New", "od", "completed", 2, 3, 9⟩ = jsTrim " New " := by
  have h := update_frame [⟨1, "old", "od", "pending", 2, 3, 4⟩]
    [⟨1, "New", "od", "completed", 2, 3, 9⟩]
    ⟨1, "old", "od", "pending", 2, 3, 4⟩ ⟨1, "New", "od", "completed", 2, 3, 9⟩
    (some " New ") none (some "completed") 9 (by decide) (by decide) rfl
  exact ⟨rfl, h.2.2.2.2.2.2.1 rfl, h.2.2.1, h.2.2.2.1,
    h.2.2.2.2.2.1 " New " rfl⟩

/-- C9: delete idempotence at the error boundary — with unique ids,
after a successful delete the same delete fails with the not-found
error, and a delete of an id/owner pair that matches nothing fails with
the not-found error (hence so does any repetition). -/
theorem delete_idempotent (db db' : List Task) (uid tid : Nat)
    (hnd : (db.map Task.id).Nodup) :
    (deleteTask db uid tid = Except.ok db' →
      deleteTask db' uid tid = Except.error TaskError.notFound)
    ∧ ((∀ t ∈ db, ¬(t.id = tid ∧ t.user = uid)) →
      deleteTask db uid tid = Except.error TaskError.notFound) := by
  constructor
  · intro hok
    have hdb' := deleteTask_ok hok
    subst hdb'
    have hnone : findOwned (db.eraseP (fun t => t.id == tid && t.user == uid))
        uid tid = none := by
      apply findOwned_none
      intro t ht hc
      exact eraseP_owned_no_match uid tid db hnd t ht (by simp [hc.1, hc.2])
    unfold deleteTask
    rw [hnone]
  · intro h
    unfold deleteTask
    rw [findOwned_none h]

/-- Witness for C9: deleting task 1 of user 1 succeeds once and then
fails with not-found; deleting a never-existing id fails the same way. -/
theorem delete_idempotent_witness :
    deleteTask ([] : List Task) 1 1 = Except.error TaskError.notFound
    ∧ deleteTask [⟨1, "a", "", "pending", 1, 0, 0⟩] 1 99
        = Except.error TaskError.notFound := by
  refine ⟨(delete_idempotent [⟨1, "a", "", "pending", 1, 0, 0⟩] [] 1 1
      (by decide)).1 rfl,
    (delete_idempotent [⟨1, "a", "", "pending", 1, 0, 0⟩] [] 1 99
      (by decide)).2 (by decide)⟩

/-- C10: an empty-string search term and/or status filter produce
exactly the result of the absent-parameter list call, both at the
backend query builder and through the frontend parameter omission. -/
theorem empty_filters_treated_absent (db : List Task) (uid : Nat) :
    listTasks db uid (some "") (some "") = listTasks db uid none none
    ∧ listTasks db uid (some "") none = listTasks db uid none none
    ∧ listTasks db uid none (some "") = listTasks db uid none none
    ∧ listTasks db uid (getAllParams "" "").1 (getAllParams "" "").2
        = listTasks db uid none none :=
  ⟨rfl, rfl, rfl, rfl⟩

end TaskManager
